import Mathlib

/-!
Verification development for the CKEditor5 UI `Template` engine
(`src/packages/ckeditor5-ui/src/template.js`).

The JavaScript source is shallowly embedded below.  JavaScript values that can
occur inside template value schemas are modelled by `JsVal`; observables are
modelled by an association map from attribute names to `JsVal`, indexed by a
numeric object identity (`ObsWorld`).  Value-transform callbacks
(`TemplateBinding#callback`) are modelled as pure functions `JsVal → JsVal`;
the DOM-node argument the source also passes to a callback is not modelled
(it is opaque user code and no verified property depends on it).  DOM nodes
are a pure tree (`DomNode`); the mutation performed by the source is modelled
by functions returning the updated tree.  Subscription side effects
(`emitter.listenTo`) are modelled as first-class listener records
(`AttrListener`, `DomListener`).
-/

/-- JavaScript primitive values that occur in template value schemas. -/
inductive JsVal where
  | str (s : String)
  | num (n : Int)
  | boolean (b : Bool)
  | nullV
  | undef
deriving DecidableEq, Repr

/-- Native JavaScript truthiness (as used by `||`, `!`, and `if`):
`false`, `0`, `''`, `null`, `undefined` are falsy. -/
def jsTruthy : JsVal → Bool
  | .str s => !(s == "")
  | .num n => !(n == 0)
  | .boolean b => b
  | .nullV => false
  | .undef => false

/-- Embeds `isFalsy` from the source: `!value && value !== 0`.
Unlike native truthiness, the number `0` is NOT falsy here. -/
def isFalsy (value : JsVal) : Bool :=
  !(jsTruthy value) && !(value == JsVal.num 0)

/-- JavaScript string conversion of a primitive value (as performed by
template-string interpolation, `join`, and `setAttributeNS`). -/
def jsToString : JsVal → String
  | .str s => s
  | .num n => toString n
  | .boolean b => if b then "true" else "false"
  | .nullV => "null"
  | .undef => "undefined"

/-- Embeds `arrayValueReducer` from the source: concatenates schema values,
skipping `isFalsy` entries and avoiding a leading separator. -/
def arrayValueReducer (prev cur : JsVal) : JsVal :=
  if isFalsy cur then prev
  else if isFalsy prev then cur
  else JsVal.str (jsToString prev ++ " " ++ jsToString cur)

/-- Space-separated join of a list of strings.  This definition follows the
specification's words ("space-joined concatenation ... never inserting a
leading separator") and is compared against the source's fold with
`arrayValueReducer`. -/
def spaceJoin : List String → String
  | [] => ""
  | [x] => x
  | x :: y :: rest => x ++ " " ++ spaceJoin (y :: rest)

/-- Embeds the expression `this.valueIfTrue || true` from
`TemplateIfBinding#getValue`: an absent (`undefined`) or JS-falsy
`valueIfTrue` yields the boolean marker `true`. -/
def jsOrDefaultTrue : Option JsVal → JsVal
  | none => JsVal.boolean true
  | some v => if jsTruthy v then v else JsVal.boolean true

/-- The states of all observables: from an object identity to the map of the
observable's attributes.  Models `this.observable[ this.attribute ]`. -/
def ObsWorld := List (Nat × List (String × JsVal))

/-- Association-list lookup by string key (JavaScript object property read). -/
def assocLookup {α : Type} : List (String × α) → String → Option α
  | [], _ => none
  | p :: rest, k => if p.1 = k then some p.2 else assocLookup rest k

/-- Association-list lookup by numeric key (object identity). -/
def assocLookupN {α : Type} : List (Nat × α) → Nat → Option α
  | [], _ => none
  | p :: rest, k => if p.1 = k then some p.2 else assocLookupN rest k

/-- Reads `observable[attr]`; a missing attribute reads as `undefined`. -/
def getObsAttr (w : ObsWorld) (obs : Nat) (attr : String) : JsVal :=
  match assocLookupN w obs with
  | some st => (assocLookup st attr).getD JsVal.undef
  | none => JsVal.undef

/-- The first argument of `bind.to`: an observable attribute name, a DOM event
name, or an event callback (the source stores all three in the same slots). -/
inductive EvtNameOrFn where
  | name (s : String)
  | fn (f : Nat)
deriving DecidableEq, Repr

/-- The fields shared by all `TemplateBinding` instances
(`observable`, `emitter`, `attribute`, `callback`).  `observable` and `emitter`
are object identities; `callback` is the optional value transform. -/
structure BindingDef where
  observable : Nat
  emitter : Nat
  attributeKey : EvtNameOrFn
  callback : Option (JsVal → JsVal)

/-- The two binding variants: `TemplateToBinding` (created by `bind.to`, which
also stores `eventNameOrFunction`) and `TemplateIfBinding` (created by
`bind.if`, which also stores `valueIfTrue`). -/
inductive TB where
  | toB (d : BindingDef) (eventNameOrFunction : EvtNameOrFn)
  | ifB (d : BindingDef) (valueIfTrue : Option JsVal)

/-- The shared `BindingDef` of a binding. -/
def TB.bdef : TB → BindingDef
  | .toB d _ => d
  | .ifB d _ => d

/-- Embeds `TemplateBinding#getValue`:
`value := this.observable[this.attribute]; callback ? callback(value) : value`.
Reading a property keyed by a function value yields `undefined`. -/
def baseGetValue (w : ObsWorld) (d : BindingDef) : JsVal :=
  let value := match d.attributeKey with
    | .name a => getObsAttr w d.observable a
    | .fn _ => JsVal.undef
  match d.callback with
  | some f => f value
  | none => value

/-- Embeds `getValue` with the `TemplateIfBinding` override:
`isFalsy(value) ? false : (this.valueIfTrue || true)`. -/
def TB.getValue (b : TB) (w : ObsWorld) : JsVal :=
  match b with
  | .toB d _ => baseGetValue w d
  | .ifB d vit =>
    let value := baseGetValue w d
    if isFalsy value then JsVal.boolean false else jsOrDefaultTrue vit

/-- One entry of a `TemplateValueSchema` array after normalization: a static
literal value or a `TemplateBinding` instance. -/
inductive SchemaItem where
  | lit (v : JsVal)
  | bind (b : TB)

/-- Truthiness of a schema entry as a JavaScript value: a binding is an
object, hence never falsy. -/
def isFalsyItem : SchemaItem → Bool
  | .lit v => isFalsy v
  | .bind _ => false

/-- Embeds the `item.observable` filter of `_bindToObservable`: primitive
literals have no `observable` property (it reads as `undefined`); binding
instances always carry one. -/
def SchemaItem.hasObservable : SchemaItem → Bool
  | .lit _ => false
  | .bind _ => true

/-- Extracts the binding of a schema entry, if it is one. -/
def SchemaItem.asBinding : SchemaItem → Option TB
  | .lit _ => none
  | .bind b => some b

/-- Embeds `getValueSchemaValue`: maps every schema entry to its current
value — bindings are evaluated with `getValue`, static values pass through. -/
def getValueSchemaValue (w : ObsWorld) (vs : List SchemaItem) : List JsVal :=
  vs.map fun schemaItem =>
    match schemaItem with
    | .bind b => b.getValue w
    | .lit v => v

/-- The aggregate computed by `syncValueSchemaValue`: when the schema is
exactly one `TemplateIfBinding` the raw `value[0]` is used (which equals that
binding's `getValue`, since `getValueSchemaValue` maps entry-wise); otherwise
the values are folded with `arrayValueReducer` starting from `''`. -/
def schemaAggregate (w : ObsWorld) (vs : List SchemaItem) : JsVal :=
  match vs with
  | [SchemaItem.bind (TB.ifB d vit)] => (TB.ifB d vit).getValue w
  | _ => (getValueSchemaValue w vs).foldl arrayValueReducer (JsVal.str "")

/-- The effect of one DOM write strategy invocation (`set`/`remove`). -/
inductive UpdaterCall where
  | set (value : JsVal)
  | remove
deriving DecidableEq, Repr

/-- Embeds `syncValueSchemaValue`: computes the aggregate, then calls the
strategy's `remove` if it `isFalsy`, else `set` with the aggregate. -/
def syncValueSchemaValue (w : ObsWorld) (vs : List SchemaItem) : UpdaterCall :=
  if isFalsy (schemaAggregate w vs) then UpdaterCall.remove
  else UpdaterCall.set (schemaAggregate w vs)

/-- Rendering of `'change:' + this.attribute` (the event key used by
`activateAttributeListener`). -/
def changeEventKey : EvtNameOrFn → String
  | .name s => "change:" ++ s
  | .fn f => "change:function#" ++ toString f

/-- A live subscription to an observable's attribute-change notification, as
registered by `emitter.listenTo( observable, 'change:' + attribute, ... )`.
`recompute` is the registered handler: it recomputes the schema value against
the observable states current at notification time. -/
structure AttrListener where
  source : Nat
  eventName : String
  recompute : ObsWorld → UpdaterCall

/-- Embeds `TemplateBinding#activateAttributeListener`: subscribes the emitter
to `change:<attribute>` on the binding's observable; the handler re-runs
`syncValueSchemaValue` on the full schema. -/
def TB.activateAttributeListener (b : TB) (vs : List SchemaItem) : AttrListener :=
  { source := b.bdef.observable
    eventName := changeEventKey b.bdef.attributeKey
    recompute := fun w => syncValueSchemaValue w vs }

/-- Embeds the subscription part of `Template#_bindToObservable`: the schema is
filtered for non-falsy entries, then for entries carrying an `observable`
reference, and each surviving entry (necessarily a binding) gets an
attribute-change listener.  Note that the falsiness filter inspects the schema
ENTRY (a binding object is always truthy), not the binding's current value. -/
def activatedListeners (vs : List SchemaItem) : List AttrListener :=
  (((vs.filter fun schemaItem => !(isFalsyItem schemaItem)).filter
      SchemaItem.hasObservable).filterMap
    fun schemaItem => schemaItem.asBinding).map
    fun b => b.activateAttributeListener vs

/-- A native DOM event, as observed by a listener: `targetMatches s` models
`domEvt.target.matches( s )`, and `payload` is the identity of the native
event object passed along to callbacks / re-emitted events. -/
structure DomEvent where
  targetMatches : String → Bool
  payload : Nat

/-- The observable action a fired DOM listener performs: invoking the
configured callback function with the native event, or firing a named event on
the observable carrying the native event. -/
inductive DomEventAction where
  | callFn (f : Nat) (evt : Nat)
  | fireEvent (observable : Nat) (eventName : String) (evt : Nat)
deriving DecidableEq, Repr

/-- Truthiness of the `domSelector` argument (`!domSelector` is true for
`undefined` and for the empty string, e.g. from the key `'click@'`). -/
def selectorTruthy : Option String → Bool
  | none => false
  | some s => !(s == "")

/-- Embeds the handler body of `TemplateToBinding#activateDomEventListener`:
`if (!domSelector || domEvt.target.matches(domSelector)) { ... }`, then either
invokes the configured function with the native event or fires the named event
on the observable with the native event as payload. -/
def handleDomEvent (observable : Nat) (eventNameOrFunction : EvtNameOrFn)
    (domSelector : Option String) (domEvt : DomEvent) : Option DomEventAction :=
  if !(selectorTruthy domSelector)
      || domEvt.targetMatches (domSelector.getD "") then
    match eventNameOrFunction with
    | .fn f => some (DomEventAction.callFn f domEvt.payload)
    | .name n => some (DomEventAction.fireEvent observable n domEvt.payload)
  else
    none

/-- A live native DOM event subscription, as registered by
`emitter.listenTo( el, domEvtName, handler )`. -/
structure DomListener where
  element : Nat
  eventName : String
  handler : DomEvent → Option DomEventAction

/-- Embeds `TemplateToBinding#activateDomEventListener` (`this` is a
`TemplateToBinding`, so `eventNameOrFunction` and `observable` come from the
binding). -/
def TB.activateDomEventListener (b : TB) (el : Nat) (domEvtName : String)
    (domSelector : Option String) : DomListener :=
  { element := el
    eventName := domEvtName
    handler := fun domEvt =>
      handleDomEvent b.bdef.observable
        (match b with
         | .toB _ enf => enf
         | .ifB _ _ => b.bdef.attributeKey)
        domSelector domEvt }

/-- A DOM node: an element (with namespace, tag, attributes keyed by an
optional namespace and a name, inline styles, and ordered child nodes) or a
Text node.  Rendering mutates nodes in place in the source; here mutation is
modelled by returning the updated tree. -/
inductive DomNode where
  | element (ns : String) (tag : String)
      (attrs : List ((Option String × String) × String))
      (styles : List (String × String))
      (children : List DomNode)
  | textNode (content : String)

/-- The default namespace (`xhtmlNs` in the source). -/
def xhtmlNs : String := "http://www.w3.org/1999/xhtml"

/-- `this.ns || xhtmlNs`. -/
def nsOrDefault : Option String → String
  | none => xhtmlNs
  | some s => if s == "" then xhtmlNs else s

/-- `el.setAttributeNS( ns, name, value )`.  A Text node has no attributes;
the (out-of-contract) case of applying an attribute-bearing template to a Text
node is modelled as a no-op. -/
def setAttrDom (n : DomNode) (ns : Option String) (name value : String) : DomNode :=
  match n with
  | .element ens tag attrs styles children =>
    if (attrs.find? (fun p => p.1 == (ns, name))).isSome then
      .element ens tag
        (attrs.map fun p => if p.1 == (ns, name) then (p.1, value) else p)
        styles children
    else
      .element ens tag (attrs ++ [((ns, name), value)]) styles children
  | .textNode c => .textNode c

/-- `el.removeAttributeNS( ns, name )`. -/
def removeAttrDom (n : DomNode) (ns : Option String) (name : String) : DomNode :=
  match n with
  | .element ens tag attrs styles children =>
    .element ens tag (attrs.filter fun p => !(p.1 == (ns, name))) styles children
  | .textNode c => .textNode c

/-- `el.style[ name ] = value`. -/
def setStyleDom (n : DomNode) (name value : String) : DomNode :=
  match n with
  | .element ens tag attrs styles children =>
    if (styles.find? (fun p => p.1 == name)).isSome then
      .element ens tag attrs
        (styles.map fun p => if p.1 == name then (p.1, value) else p) children
    else
      .element ens tag attrs (styles ++ [(name, value)]) children
  | .textNode c => .textNode c

/-- `el.style[ name ] = null` (the style updater's `remove`). -/
def removeStyleDom (n : DomNode) (name : String) : DomNode :=
  match n with
  | .element ens tag attrs styles children =>
    .element ens tag attrs (styles.filter fun p => !(p.1 == name)) children
  | .textNode c => .textNode c

/-- `node.textContent = value`: on a Text node sets the content, on an element
replaces all children with a single Text node. -/
def setTextContent (n : DomNode) (value : String) : DomNode :=
  match n with
  | .textNode _ => .textNode value
  | .element ens tag attrs styles _ => .element ens tag attrs styles [.textNode value]

/-- `node.childNodes` (a Text node has none). -/
def domChildren : DomNode → List DomNode
  | .element _ _ _ _ children => children
  | .textNode _ => []

/-- Replaces the children of an element (the result of positional applying). -/
def setChildren (n : DomNode) (cs : List DomNode) : DomNode :=
  match n with
  | .element ens tag attrs styles _ => .element ens tag attrs styles cs
  | .textNode c => .textNode c

/-- `container.appendChild(...)` for each rendered child, in order. -/
def appendChildren (n : DomNode) (cs : List DomNode) : DomNode :=
  match n with
  | .element ens tag attrs styles children => .element ens tag attrs styles (children ++ cs)
  | .textNode c => .textNode c

/-- One entry of a normalized attribute value array: a schema item, a
namespaced wrapper `{ ns, value: [ ... ] }`, or the style object. -/
inductive AttrPart where
  | item (i : SchemaItem)
  | nsValue (ns : String) (value : List SchemaItem)
  | styles (entries : List (String × SchemaItem))

/-- `hasTemplateBinding` on a single schema item. -/
def hasTemplateBindingItem : SchemaItem → Bool
  | .bind _ => true
  | .lit _ => false

/-- Embeds `hasTemplateBinding` on an attribute value array: arrays are
searched with `some`, a `{ ns, value }` wrapper is unwrapped through its
`value`, a binding instance answers true, and anything else (including the
style object, which has no `value` property) answers false. -/
def hasTemplateBindingPart : AttrPart → Bool
  | .item i => hasTemplateBindingItem i
  | .nsValue _ value => value.any hasTemplateBindingItem
  | .styles _ => false

/-- `hasTemplateBinding` on the whole (array-valued) attribute value. -/
def hasTemplateBindingParts (ps : List AttrPart) : Bool :=
  ps.any hasTemplateBindingPart

/-- JavaScript string conversion of a schema item (a binding is an object).
Reachable only on degenerate schemas; kept total for faithfulness of the
string-aggregation path. -/
def schemaItemToString : SchemaItem → String
  | .lit v => jsToString v
  | .bind _ => "[object Object]"

/-- The value of a schema item in the static aggregation path of
`_renderAttributes` (`.map( v => v ? ( v.value || v ) : v )` followed by
flattening): `{ ns, value }` wrappers contribute their unwrapped values, other
objects stringify. -/
def flattenAttrParts (ps : List AttrPart) : List JsVal :=
  ps.foldr
    (fun p acc =>
      match p with
      | .item (.lit v) => v :: acc
      | .item (.bind _) => JsVal.str "[object Object]" :: acc
      | .nsValue _ value =>
        (value.map fun i =>
          match i with
          | .lit v => v
          | .bind _ => JsVal.str "[object Object]") ++ acc
      | .styles _ => JsVal.str "[object Object]" :: acc)
    []

/-- The errors raised by the engine.  `invalidDefinition` is the source's
`ui-template-wrong-syn` + `tax` error (tag/text exclusivity), `missingTarget`
is `ui-template-wrong-node` (apply without a node), `childCountMismatch` is
`ui-template-extend-children-mismatch`, and `typeError` models the native
TypeError JavaScript raises when the source dereferences a property of
`undefined` (e.g. `template.text.push` on a template without text). -/
inductive CKError where
  | invalidDefinition
  | missingTarget
  | childCountMismatch
  | typeError
deriving DecidableEq, Repr

mutual
/-- A canonical (normalized) `Template` instance.  Exactly the own properties
the source gives an instance: optional `tag`/`ns`/`text`, optional normalized
`attributes` and `eventListeners` maps, and the optional children collection
(present exactly when the definition had no truthy `text`). -/
inductive Tmpl where
  | mk (tag : Option String) (ns : Option String)
       (text : Option (List SchemaItem))
       (attributes : Option (List (String × List AttrPart)))
       (eventListeners : Option (List (String × List TB)))
       (children : Option (List TmplChild))

/-- A child held in a template's children collection: a nested template, a
pre-built View (externally owned, carrying its own element), or a
ViewCollection (carrying the elements of its views). -/
inductive TmplChild where
  | sub (t : Tmpl)
  | view (element : DomNode)
  | viewCollection (elements : List DomNode)
end

/-- The `tag` property. -/
def Tmpl.tag : Tmpl → Option String
  | .mk t _ _ _ _ _ => t

/-- The `ns` property. -/
def Tmpl.ns : Tmpl → Option String
  | .mk _ n _ _ _ _ => n

/-- The `text` property. -/
def Tmpl.text : Tmpl → Option (List SchemaItem)
  | .mk _ _ tx _ _ _ => tx

/-- The `attributes` property. -/
def Tmpl.attributes : Tmpl → Option (List (String × List AttrPart))
  | .mk _ _ _ a _ _ => a

/-- The `eventListeners` property. -/
def Tmpl.eventListeners : Tmpl → Option (List (String × List TB))
  | .mk _ _ _ _ e _ => e

/-- The `children` property. -/
def Tmpl.children : Tmpl → Option (List TmplChild)
  | .mk _ _ _ _ _ c => c

/-- Truthiness of `this.tag` (a present but empty tag string is falsy). -/
def hasTag (t : Tmpl) : Bool :=
  match t.tag with
  | some s => !(s == "")
  | none => false

/-- Truthiness of `this.text` (a present text array is always truthy,
even when empty, because arrays are objects). -/
def hasText (t : Tmpl) : Bool :=
  t.text.isSome

/-- Embeds `_renderText`'s content update: with a binding in the schema the
initial value is written through the text updater (`set` writes the value,
`remove` writes `''`); otherwise `textContent = this.text.join('')`. -/
def renderTextNode (w : ObsWorld) (items : List SchemaItem) (tn : DomNode) : DomNode :=
  if items.any hasTemplateBindingItem then
    match syncValueSchemaValue w items with
    | .set v => setTextContent tn (jsToString v)
    | .remove => setTextContent tn ""
  else
    setTextContent tn (String.join (items.map schemaItemToString))

/-- Embeds `_renderStyleAttribute`: each style property is either bound (the
one-element schema `[ styleValue ]` is synchronized through the style
updater) or written literally. -/
def renderStyleAttr (w : ObsWorld) (styles : List (String × SchemaItem)) (el : DomNode) : DomNode :=
  styles.foldl
    (fun el p =>
      let styleName := p.1
      let styleValue := p.2
      if hasTemplateBindingItem styleValue then
        match syncValueSchemaValue w [styleValue] with
        | .set v => setStyleDom el styleName (jsToString v)
        | .remove => removeStyleDom el styleName
      else
        match styleValue with
        | .lit v => setStyleDom el styleName (jsToString v)
        | .bind _ => el)
    el

/-- Embeds `_renderAttributes`: per attribute, detect a `{ ns, value }`
wrapper; a schema containing a binding is synchronized through the attribute
updater (initial value written by `syncValueSchemaValue`); the `style`
attribute whose first entry is not a string is rendered per style property;
otherwise the values are unwrapped, flattened, folded with
`arrayValueReducer`, and written unless falsy. -/
def renderAttributes (w : ObsWorld) (attrs : List (String × List AttrPart)) (el : DomNode) : DomNode :=
  attrs.foldl
    (fun el p =>
      let attrName := p.1
      let attrValue := p.2
      let attrNs : Option String :=
        match attrValue.head? with
        | some (.nsValue ns _) => if ns == "" then none else some ns
        | _ => none
      if hasTemplateBindingParts attrValue then
        let schema : List SchemaItem :=
          match attrNs, attrValue.head? with
          | some _, some (.nsValue _ value) => value
          | _, _ =>
            attrValue.map fun part =>
              match part with
              | .item i => i
              | .nsValue _ _ => SchemaItem.lit (JsVal.str "[object Object]")
              | .styles _ => SchemaItem.lit (JsVal.str "[object Object]")
        match syncValueSchemaValue w schema with
        | .set v => setAttrDom el attrNs attrName (jsToString v)
        | .remove => removeAttrDom el attrNs attrName
      else if attrName == "style"
          && !(match attrValue.head? with
               | some (.item (.lit (.str _))) => true
               | _ => false) then
        match attrValue.head? with
        | some (.styles entries) => renderStyleAttr w entries el
        | _ => el
      else
        let aggregated := (flattenAttrParts attrValue).foldl arrayValueReducer (JsVal.str "")
        if isFalsy aggregated then el
        else setAttrDom el attrNs attrName (jsToString aggregated))
    el

mutual
/-- Embeds `_renderNode` together with the inlined `_renderElement`: the
validity check (`tag && text` when applying, XOR of `tag`/`text` when
rendering fresh), then text rendering, or element rendering — reuse the apply
target or create a fresh element in `this.ns || xhtmlNs`, render attributes,
then recurse into children (in apply mode positionally onto the existing
child nodes, otherwise creating and appending fresh nodes).  `intoFragment`
only batches DOM insertions in the source (children rendered into a detached
fragment, then appended); the resulting tree is identical, so the flag does
not influence the model's result.  DOM event listener registration
(`_setUpListeners`) is a pure subscription side effect, modelled by
`TB.activateDomEventListener`.  Iterating `this.children` when the property
is absent raises a TypeError. -/
def renderNode (w : ObsWorld) (t : Tmpl) (applyNode : Option DomNode)
    (intoFragment : Bool) : Except CKError DomNode :=
  let isInvalid :=
    match applyNode with
    | some _ => hasTag t && hasText t
    | none => if hasTag t then hasText t else !(hasText t)
  if isInvalid then Except.error CKError.invalidDefinition
  else
    match t with
    | .mk _ _ (some items) _ _ _ =>
      Except.ok (renderTextNode w items (applyNode.getD (DomNode.textNode "")))
    | .mk tg tns none a _ chOpt =>
      match chOpt with
      | none => Except.error CKError.typeError
      | some cs =>
        let el :=
          match applyNode with
          | some n => n
          | none => DomNode.element (nsOrDefault tns) (tg.getD "") [] [] []
        let el := renderAttributes w (a.getD []) el
        match applyNode with
        | some _ => do
          let kids ← applyChildList w cs (domChildren el) 0
          pure (setChildren el kids)
        | none => do
          let kids ← renderChildList w cs
          pure (appendChildren el kids)

/-- Embeds `_renderElementChildren` with `shouldApply == true`: View and
ViewCollection children are passed over untouched and do not consume a child
index; a template child is applied to `container.childNodes[ childIndex++ ]` —
when that read yields `undefined` (more template children than existing
nodes), `_renderNode(undefined)` renders a fresh node which is never attached
anywhere (it is dropped). -/
def applyChildList (w : ObsWorld) (cs : List TmplChild) (existing : List DomNode)
    (childIndex : Nat) : Except CKError (List DomNode) :=
  match cs with
  | [] => Except.ok existing
  | (.view _) :: rest => applyChildList w rest existing childIndex
  | (.viewCollection _) :: rest => applyChildList w rest existing childIndex
  | (.sub s) :: rest =>
    match existing[childIndex]? with
    | some node => do
      let node2 ← renderNode w s (some node) false
      applyChildList w rest (existing.set childIndex node2) (childIndex + 1)
    | none => do
      let _ ← renderNode w s none false
      applyChildList w rest existing (childIndex + 1)

/-- Embeds `_renderElementChildren` with `shouldApply == false`: the element
of a View child and the elements of a ViewCollection child are appended
as-is; a template child is rendered fresh (`child.render()`) and appended. -/
def renderChildList (w : ObsWorld) (cs : List TmplChild) : Except CKError (List DomNode) :=
  match cs with
  | [] => Except.ok []
  | (.view element) :: rest => do
    let nds ← renderChildList w rest
    pure (element :: nds)
  | (.viewCollection elements) :: rest => do
    let nds ← renderChildList w rest
    pure (elements ++ nds)
  | (.sub s) :: rest => do
    let nd ← renderNode w s none true
    let nds ← renderChildList w rest
    pure (nd :: nds)
end

/-- Embeds `Template#render`: `this._renderNode( undefined, true )`. -/
def Tmpl.render (w : ObsWorld) (t : Tmpl) : Except CKError DomNode :=
  renderNode w t none true

/-- Embeds `Template#apply`: throws `ui-template-wrong-node` when no node is
given, else `this._renderNode( node )`. -/
def Tmpl.applyTo (w : ObsWorld) (t : Tmpl) (node : Option DomNode) : Except CKError DomNode :=
  match node with
  | none => Except.error CKError.missingTarget
  | some n => renderNode w t (some n) false

/-- Embeds `extendObjectValueArray`: for every key of the extending object,
append its array to the base object's array under that key, or add the key
verbatim when the base has no such key. -/
def extendObjectValueArray {α : Type} (obj ext : List (String × List α)) : List (String × List α) :=
  ext.foldl
    (fun acc kv =>
      if (assocLookup acc kv.1).isSome then
        acc.map fun p => if p.1 = kv.1 then (p.1, p.2 ++ kv.2) else p
      else acc ++ [kv])
    obj

mutual
/-- Embeds `extendTemplate`: merges `def.attributes` and `def.eventListeners`
key-by-key into the template (creating the maps when absent), appends
`def.text` (`template.text.push(...)` — a TypeError when the template has no
text array), and, when the fragment declares a non-zero number of children,
requires equal child counts (else `ui-template-extend-children-mismatch`)
and recurses into each child pairwise.  In-place mutation is modelled by
returning the extended template; on an error the partially-mutated state the
source leaves behind is not represented. -/
def extendTemplate (template d : Tmpl) : Except CKError Tmpl :=
  match template, d with
  | .mk tg tns tx a e ch, .mk _ _ dtx da de dch =>
    let a2 := match da with
      | none => a
      | some ea => some (extendObjectValueArray (a.getD []) ea)
    let e2 := match de with
      | none => e
      | some ee => some (extendObjectValueArray (e.getD []) ee)
    let tx2 : Except CKError (Option (List SchemaItem)) :=
      match dtx with
      | none => Except.ok tx
      | some ts =>
        match tx with
        | none => Except.error CKError.typeError
        | some old => Except.ok (some (old ++ ts))
    match tx2 with
    | .error err => Except.error err
    | .ok tx3 =>
      match dch with
      | none => Except.ok (.mk tg tns tx3 a2 e2 ch)
      | some [] => Except.ok (.mk tg tns tx3 a2 e2 ch)
      | some dcs =>
        match ch with
        | none => Except.error CKError.typeError
        | some tcs =>
          if tcs.length != dcs.length then Except.error CKError.childCountMismatch
          else do
            let cs ← extendChildList tcs dcs
            Except.ok (.mk tg tns tx3 a2 e2 (some cs))

/-- Pairwise recursion of `extendTemplate` into children
(`extendTemplate( template.children.get( childIndex++ ), childDef )`). -/
def extendChildList (tcs dcs : List TmplChild) : Except CKError (List TmplChild) :=
  match tcs, dcs with
  | tcs, [] => Except.ok tcs
  | [], _ :: _ => Except.error CKError.typeError
  | tc :: trest, dc :: drest => do
    let c ← extendChild tc dc
    let rest2 ← extendChildList trest drest
    Except.ok (c :: rest2)

/-- Extension of one child pair.  Only template/template pairs are within the
modelled core: a View or ViewCollection child is an externally owned object
(out of scope per the specification), modelled as passed through unchanged. -/
def extendChild (tc dc : TmplChild) : Except CKError TmplChild :=
  match tc, dc with
  | .sub t, .sub dt => do
    let t2 ← extendTemplate t dt
    Except.ok (.sub t2)
  | .sub t, .view _ => Except.ok (.sub t)
  | .sub t, .viewCollection _ => Except.ok (.sub t)
  | .view el, _ => Except.ok (.view el)
  | .viewCollection els, _ => Except.ok (.viewCollection els)
end

/-- The raw `text` property of a definition: a single value or an array. -/
inductive RawText where
  | one (i : SchemaItem)
  | arr (items : List SchemaItem)

/-- A raw attribute value before normalization: a single value, an array, or
a `{ ns, value }` wrapper with a single value or an array inside. -/
inductive RawAttrValue where
  | one (p : AttrPart)
  | many (ps : List AttrPart)
  | nsOne (ns : String) (v : SchemaItem)
  | nsMany (ns : String) (vs : List SchemaItem)

/-- A raw `on` entry value before normalization. -/
inductive RawListenerValue where
  | one (b : TB)
  | many (bs : List TB)

mutual
/-- A `TemplateDefinition` as accepted from callers: a plain string or an
object with the recognized keys (`tag`, `ns`, `text`, `attributes`,
`children`, `on`). -/
inductive RawDef where
  | strDef (s : String)
  | objDef (tag : Option String) (ns : Option String)
           (text : Option RawText)
           (attributes : Option (List (String × RawAttrValue)))
           (children : Option RawChildren)
           (onKey : Option (List (String × RawListenerValue)))

/-- The raw `children` property: an ordered list of child definitions, or a
pre-built `ViewCollection` instance given directly. -/
inductive RawChildren where
  | list (cs : List RawChild)
  | collection (els : List DomNode)

/-- One raw child: a nested definition (including plain strings, via
`RawDef.strDef`) or a pre-built View instance. -/
inductive RawChild where
  | defC (d : RawDef)
  | viewC (element : DomNode)
end

/-- Embeds `normalizeAttributes` on one value: a `{ ns, value }` inner value
is `[].concat`-wrapped, then the whole entry is `arrayify`-wrapped. -/
def normalizeAttrValue : RawAttrValue → List AttrPart
  | .one p => [p]
  | .many ps => ps
  | .nsOne ns v => [AttrPart.nsValue ns [v]]
  | .nsMany ns vs => [AttrPart.nsValue ns vs]

/-- Embeds `normalizeAttributes`. -/
def normalizeAttributes (attrs : List (String × RawAttrValue)) : List (String × List AttrPart) :=
  attrs.map fun p => (p.1, normalizeAttrValue p.2)

/-- Embeds `normalizeListeners` (`arrayify` every entry). -/
def normalizeListeners (listeners : List (String × RawListenerValue)) : List (String × List TB) :=
  listeners.map fun p =>
    (p.1, match p.2 with
          | .one b => [b]
          | .many bs => bs)

/-- Truthiness of `def.text`: present arrays and binding instances are objects
(truthy); a single primitive value is truthy per `jsTruthy`. -/
def rawTextTruthy : Option RawText → Bool
  | none => false
  | some (.one (.lit v)) => jsTruthy v
  | some (.one (.bind _)) => true
  | some (.arr _) => true

/-- Embeds `normalizeTextDefinition` (array-wrap a non-array `text`). -/
def normalizeText : Option RawText → List SchemaItem
  | none => []
  | some (.one i) => [i]
  | some (.arr items) => items

mutual
/-- Embeds `normalize` from the source: a plain string becomes `{ text: [string] }`; a truthy
`text` is array-wrapped and suppresses attribute/children normalization; `on`
moves to `eventListeners`; otherwise attributes are normalized and `children`
becomes a collection of Views (kept as-is) and nested `Template` instances.
A present but falsy `text` (e.g. `text: ''`) is modelled as absent: every
later read treats it as missing (falsy in the render checks, and
`text.push` fails on it just as on `undefined`). -/
def normalizeDef (d : RawDef) : Tmpl :=
  match d with
  | .strDef s => Tmpl.mk none none (some [SchemaItem.lit (JsVal.str s)]) none none none
  | .objDef tg tns tx a ch onL =>
    let e := onL.map normalizeListeners
    if rawTextTruthy tx then
      Tmpl.mk tg tns (some (normalizeText tx)) (a.map normalizeAttributes) e none
    else
      let children : List TmplChild :=
        match ch with
        | none => []
        | some (.collection els) => [TmplChild.viewCollection els]
        | some (.list cs) => normalizeChildList cs
      Tmpl.mk tg tns none (a.map normalizeAttributes) e (some children)

/-- Normalization of the ordered children (each plain child definition is
wrapped into a nested `Template`, a View passes through). -/
def normalizeChildList (cs : List RawChild) : List TmplChild :=
  match cs with
  | [] => []
  | (.viewC el) :: rest => TmplChild.view el :: normalizeChildList rest
  | (.defC d) :: rest => TmplChild.sub (normalizeDef d) :: normalizeChildList rest
end

/-- Embeds the `Template` constructor: `Object.assign( this,
normalize( clone( def ) ) )`.  `clone` deep-clones plain data but preserves
binding and View identities; on the pure values of this model it is the
identity. -/
def Tmpl.ofDef (d : RawDef) : Tmpl := normalizeDef d

/-- Embeds `Template.extend( template, def )`:
`extendTemplate( template, normalize( clone( def ) ) )`. -/
def Tmpl.extendWith (template : Tmpl) (d : RawDef) : Except CKError Tmpl :=
  extendTemplate template (normalizeDef d)

/-- Truthiness of an optional tag string. -/
def tagTruthy : Option String → Bool
  | none => false
  | some s => !(s == "")

mutual
/-- Characterization (proved below, not part of the source): a template tree
every node of which passes the render-mode exclusivity check — the node has
exactly one of truthy `tag` / present `text`, and, for element nodes, the
children collection is present and recursively valid.  View children carry
their own pre-built nodes and impose no condition. -/
def treeValid : Tmpl → Bool
  | .mk tg _ tx _ _ chOpt =>
    (tagTruthy tg != tx.isSome) &&
    (match tx with
     | some _ => true
     | none =>
       match chOpt with
       | none => false
       | some cs => childListValid cs)

/-- `treeValid` on every template child of a children list. -/
def childListValid (cs : List TmplChild) : Bool :=
  match cs with
  | [] => true
  | (.sub s) :: rest => treeValid s && childListValid rest
  | (.view _) :: rest => childListValid rest
  | (.viewCollection _) :: rest => childListValid rest
end

mutual
/-- Characterization of the shape `normalize` guarantees (proved below): a
template has its children collection present whenever it has no text, and
recursively so for nested templates.  On such templates the renderer never
trips over an absent `children` property (the `typeError` case). -/
def wfTmpl : Tmpl → Bool
  | .mk _ _ tx _ _ chOpt =>
    (tx.isSome || chOpt.isSome) &&
    (match chOpt with
     | none => true
     | some cs => wfChildList cs)

/-- `wfTmpl` on every template child of a children list. -/
def wfChildList (cs : List TmplChild) : Bool :=
  match cs with
  | [] => true
  | (.sub s) :: rest => wfTmpl s && wfChildList rest
  | (.view _) :: rest => wfChildList rest
  | (.viewCollection _) :: rest => wfChildList rest
end

/-- Truthiness of the optional `valueIfTrue` as the `||` operator sees it
(`undefined` is falsy; a present value is tested with native truthiness,
so a configured `0` or `''` is falsy here). -/
def jsTruthyOpt : Option JsVal → Bool
  | none => false
  | some v => jsTruthy v

/-- Key-wise merge of two optional value arrays, following the
specification's words for `extend`: both present — concatenated; only one
present — taken verbatim.  Compared below against `extendObjectValueArray`. -/
def mergeValueArrays {α : Type} : Option (List α) → Option (List α) → Option (List α)
  | some x, some y => some (x ++ y)
  | some x, none => some x
  | none, y => y

/-- A paragraph-with-one-child definition used as a concrete input:
`{ tag: 'p', children: [ { tag: 'span' } ] }`. -/
def pDef : RawDef :=
  RawDef.objDef (some "p") none none none
    (some (RawChildren.list [RawChild.defC (RawDef.objDef (some "span") none none none none none)]))
    none

/-- The normalized `{ tag: 'span' }` child template. -/
def tchild0 : Tmpl := Tmpl.mk (some "span") none none none none (some [])

/-- The normalized form of `pDef`. -/
def t0 : Tmpl := Tmpl.mk (some "p") none none none none (some [TmplChild.sub tchild0])

/-- The empty object definition `{}`. -/
def emptyObjDef : RawDef := RawDef.objDef none none none none none none

/-- The normalized form of `{}`: no tag, no text, and an empty (but present)
children collection. -/
def frag0 : Tmpl := Tmpl.mk none none none none none (some [])

/-- A normalized fragment declaring two children (for the amended claim C3's
witness): its child count (2) differs from `t0`'s (1). -/
def frag2 : Tmpl :=
  Tmpl.mk none none none none none (some [TmplChild.sub frag0, TmplChild.sub frag0])

/-- A normalized fragment with one child and a `class` attribute (for claim
C7's witness). -/
def fragM : Tmpl :=
  Tmpl.mk none none none
    (some [("class", [AttrPart.item (SchemaItem.lit (JsVal.str "b"))])])
    none
    (some [TmplChild.sub frag0])

/-- The definition `{ tag: 'span', text: 'x' }` — both `tag` and `text`. -/
def spanTextDef : RawDef :=
  RawDef.objDef (some "span") none (some (RawText.one (SchemaItem.lit (JsVal.str "x"))))
    none none none

/-- The normalized form of `spanTextDef`: a template carrying both a truthy
`tag` and a present `text`. -/
def childBoth : Tmpl :=
  Tmpl.mk (some "span") none (some [SchemaItem.lit (JsVal.str "x")]) none none none

/-- The definition `{ tag: 'div', children: [ spanTextDef ] }`: a valid root
with an invalid child. -/
def divBadChildDef : RawDef :=
  RawDef.objDef (some "div") none none none
    (some (RawChildren.list [RawChild.defC spanTextDef])) none

/-- The normalized form of `divBadChildDef`. -/
def rootDiv : Tmpl :=
  Tmpl.mk (some "div") none none none none (some [TmplChild.sub childBoth])

/-- The definition `{ children: [ spanTextDef ] }`: neither `tag` nor `text`
at the root, with an invalid child. -/
def neitherBadChildDef : RawDef :=
  RawDef.objDef none none none none
    (some (RawChildren.list [RawChild.defC spanTextDef])) none

/-- The normalized form of `neitherBadChildDef`. -/
def rootNeither : Tmpl :=
  Tmpl.mk none none none none none (some [TmplChild.sub childBoth])

/-- An existing DOM target `<div><span></span></div>` for `apply`. -/
def applyTarget : DomNode :=
  DomNode.element xhtmlNs "div" [] [] [DomNode.element xhtmlNs "span" [] [] []]

/-- A binding definition observing attribute `a` of observable `1`
(no transform). -/
def bindingDefA : BindingDef :=
  { observable := 1, emitter := 2, attributeKey := EvtNameOrFn.name "a", callback := none }

/-- An observable world where `observable 1` has `a == 'yes'`. -/
def worldTruthyA : ObsWorld := [(1, [("a", JsVal.str "yes")])]

/-- An observable world where `observable 1` has `a == ''` (falsy). -/
def worldFalsyA : ObsWorld := [(1, [("a", JsVal.str "")])]

/-- The conditional binding `bind.if( 'a', '' )` — its configured
`valueIfTrue` is the (falsy) empty string. -/
def ifBindingEmptyTrue : TB := TB.ifB bindingDefA (some (JsVal.str ""))

/-- A mirror binding `bind.to( 'a' )`. -/
def toBindingA : TB := TB.toB bindingDefA (EvtNameOrFn.name "a")

/-- A two-entry value schema `[ 'x', bind.to( 'a' ) ]`. -/
def vsEx : List SchemaItem :=
  [SchemaItem.lit (JsVal.str "x"), SchemaItem.bind toBindingA]

/-- A value schema holding a falsy literal and a binding whose current value
is falsy (for claim C8's witness: the binding is subscribed regardless). -/
def vsFalsy : List SchemaItem :=
  [SchemaItem.lit (JsVal.str ""), SchemaItem.bind toBindingA]

/-- A DOM event whose target matches exactly the selector `.item`. -/
def evtEx : DomEvent := { targetMatches := fun s => s == ".item", payload := 9 }

/-- A valid childless paragraph template (for claim C1's witness). -/
def tValidP : Tmpl := Tmpl.mk (some "p") none none none none (some [])

theorem exceptBindError {a b : Type} (e : CKError) (f : a → Except CKError b) :
    (Except.error e >>= f : Except CKError b) = Except.error e := rfl

theorem exceptBindOk {a b : Type} (x : a) (f : a → Except CKError b) :
    (Except.ok x >>= f : Except CKError b) = f x := rfl

theorem isFalsy_str (s : String) : isFalsy (JsVal.str s) = (s == "") := by
  by_cases h : s = "" <;> simp [isFalsy, jsTruthy, h]

theorem isFalsy_emptyStr : isFalsy (JsVal.str "") = true := by decide

theorem spaceJoin_glue (x y : String) (rest : List String) :
    spaceJoin ((x ++ " " ++ y) :: rest) = x ++ " " ++ spaceJoin (y :: rest) := by
  cases rest with
  | nil => simp [spaceJoin]
  | cons z zs => simp [spaceJoin, String.append_assoc]

theorem avr_fold_nonfalsy (l : List JsVal) :
    ∀ acc : JsVal, isFalsy acc = false →
      isFalsy (l.foldl arrayValueReducer acc) = false ∧
      jsToString (l.foldl arrayValueReducer acc) =
        spaceJoin (jsToString acc :: (l.filter fun v => !(isFalsy v)).map jsToString) := by
  induction l with
  | nil =>
    intro acc h
    exact ⟨h, by simp [spaceJoin]⟩
  | cons c rest ih =>
    intro acc h
    by_cases hc : isFalsy c = true
    · have hrec := ih acc h
      constructor
      · simpa [List.foldl_cons, arrayValueReducer, hc] using hrec.1
      · simpa [List.foldl_cons, arrayValueReducer, hc, List.filter_cons] using hrec.2
    · have hc2 : isFalsy c = false := by simpa using hc
      have hne : (jsToString acc ++ " " ++ jsToString c) ≠ "" := by
        intro he
        have hlen := congrArg String.length he
        rw [String.length_append, String.length_append] at hlen
        have hsp : (" " : String).length = 1 := rfl
        have hz : ("" : String).length = 0 := rfl
        omega
      have hacc2 : isFalsy (JsVal.str (jsToString acc ++ " " ++ jsToString c)) = false := by
        simp [isFalsy_str, hne]
      have hstep : arrayValueReducer acc c = JsVal.str (jsToString acc ++ " " ++ jsToString c) := by
        simp [arrayValueReducer, hc2, h]
      have hrec := ih _ hacc2
      constructor
      · simpa [List.foldl_cons, hstep] using hrec.1
      · rw [List.foldl_cons, hstep, hrec.2]
        simp [jsToString, List.filter_cons, hc2, spaceJoin_glue, spaceJoin]

/-- Claim C6 (confirmed): folding a list of schema values with
`arrayValueReducer` from the empty string produces the space-joined
concatenation of the non-falsy entries, skipping falsy entries entirely and
inserting no leading separator; in particular `[ 'a', '', 'b' ]` reduces to
`'a b'`. -/
theorem arrayValueReducer_fold_spaceJoin :
    (∀ l : List JsVal,
       jsToString (l.foldl arrayValueReducer (JsVal.str "")) =
         spaceJoin ((l.filter fun v => !(isFalsy v)).map jsToString)) ∧
    [JsVal.str "a", JsVal.str "", JsVal.str "b"].foldl arrayValueReducer (JsVal.str "")
      = JsVal.str "a b" := by
  constructor
  · intro l
    induction l with
    | nil => simp [spaceJoin, jsToString]
    | cons c rest ih =>
      by_cases hc : isFalsy c = true
      · simpa [List.foldl_cons, arrayValueReducer, hc, List.filter_cons] using ih
      · have hc2 : isFalsy c = false := by simpa using hc
        have hstep : arrayValueReducer (JsVal.str "") c = c := by
          simp [arrayValueReducer, hc2, isFalsy_emptyStr]
        have h := (avr_fold_nonfalsy rest c hc2).2
        simp [List.foldl_cons, hstep, h, List.filter_cons, hc2]
  · decide

/-- Claim C4 counterexample: for the conditional binding
`bind.if( 'a', '' )` (a CONFIGURED `valueIfTrue`, namely the empty string)
and a truthy source value, `getValue` returns the generic marker `true`, not
the configured literal `''` — so the claim's "returns the configured
valueIfTrue" fails as stated. -/
theorem ifBinding_configured_falsy_valueIfTrue_ignored :
    baseGetValue worldTruthyA ifBindingEmptyTrue.bdef = JsVal.str "yes"
    ∧ isFalsy (JsVal.str "yes") = false
    ∧ ifBindingEmptyTrue.getValue worldTruthyA = JsVal.boolean true
    ∧ JsVal.boolean true ≠ JsVal.str "" := by
  refine ⟨by decide, by decide, ?_, by decide⟩
  decide

/-- Claim C4 (amended, proved): `getValue` of a conditional binding returns
`false` exactly when the (possibly transform-processed) source value is falsy
(`false`, `null`, `undefined`, `''` — the number `0` is truthy); otherwise it
returns the configured `valueIfTrue` when that value is itself truthy, and
the generic marker `true` when no `valueIfTrue` is configured or the
configured one is falsy in the `||` sense. -/
theorem ifBinding_getValue_characterization (w : ObsWorld) (d : BindingDef)
    (vit : Option JsVal) :
    (isFalsy (baseGetValue w d) = true →
       (TB.ifB d vit).getValue w = JsVal.boolean false)
    ∧ (isFalsy (baseGetValue w d) = false →
       (TB.ifB d vit).getValue w =
         (match vit with
          | none => JsVal.boolean true
          | some u => if jsTruthy u then u else JsVal.boolean true))
    ∧ isFalsy (JsVal.num 0) = false
    ∧ isFalsy (JsVal.str "") = true
    ∧ isFalsy JsVal.nullV = true
    ∧ isFalsy JsVal.undef = true
    ∧ isFalsy (JsVal.boolean false) = true := by
  refine ⟨?_, ?_, by decide, by decide, by decide, by decide, by decide⟩
  · intro h
    simp [TB.getValue, h]
  · intro h
    cases vit with
    | none => simp [TB.getValue, h, jsOrDefaultTrue]
    | some u => simp [TB.getValue, h, jsOrDefaultTrue]

/-- Witness for the amended claim C4: at `bind.if( 'a', 'ok' )` with source
value `'yes'`, `getValue` returns the configured `'ok'`. -/
theorem ifBinding_getValue_characterization_witness :
    (TB.ifB bindingDefA (some (JsVal.str "ok"))).getValue worldTruthyA = JsVal.str "ok" := by
  have h := (ifBinding_getValue_characterization worldTruthyA bindingDefA
    (some (JsVal.str "ok"))).2.1 (by decide)
  simpa using h

/-- Claim C10 (confirmed): when the source value is truthy but the configured
`valueIfTrue` is itself falsy (e.g. `''` or `0`) — or none is configured —
`getValue` returns the boolean `true` marker; and `getValue` never produces a
falsy result other than the boolean `false`. -/
theorem ifBinding_marker_and_no_other_falsy (w : ObsWorld) (d : BindingDef)
    (vit : Option JsVal) :
    (isFalsy (baseGetValue w d) = false → jsTruthyOpt vit = false →
       (TB.ifB d vit).getValue w = JsVal.boolean true)
    ∧ (isFalsy ((TB.ifB d vit).getValue w) = true →
       (TB.ifB d vit).getValue w = JsVal.boolean false) := by
  constructor
  · intro h1 h2
    cases vit with
    | none => simp [TB.getValue, h1, jsOrDefaultTrue]
    | some u =>
      have hu : jsTruthy u = false := by simpa [jsTruthyOpt] using h2
      simp [TB.getValue, h1, jsOrDefaultTrue, hu]
  · intro h
    by_cases hb : isFalsy (baseGetValue w d) = true
    · simp [TB.getValue, hb]
    · have hb2 : isFalsy (baseGetValue w d) = false := by simpa using hb
      cases vit with
      | none =>
        simp [TB.getValue, hb2, jsOrDefaultTrue] at h
        exact absurd h (by decide)
      | some u =>
        by_cases hu : jsTruthy u = true
        · simp [TB.getValue, hb2, jsOrDefaultTrue, hu] at h
          exact absurd h (by simp [isFalsy, hu])
        · have hu2 : jsTruthy u = false := by simpa using hu
          simp [TB.getValue, hb2, jsOrDefaultTrue, hu2] at h
          exact absurd h (by decide)
    
/-- Witness for claim C10: `bind.if( 'a', 0 )` (configured `valueIfTrue` is
the falsy number `0`) with truthy source `'yes'` yields the marker `true`. -/
theorem ifBinding_marker_and_no_other_falsy_witness :
    (TB.ifB bindingDefA (some (JsVal.num 0))).getValue worldTruthyA = JsVal.boolean true :=
  (ifBinding_marker_and_no_other_falsy worldTruthyA bindingDefA
    (some (JsVal.num 0))).1 (by decide) (by decide)

/-- Claim C5 (confirmed): `activateAttributeListener` subscribes to
`change:<attribute>` on the binding's observable, and the registered handler
is exactly `syncValueSchemaValue` on the full schema, so each notification
recomputes the whole aggregate against the then-current observable states;
in that recomputation literal entries pass through fixed while every binding
is re-evaluated; a falsy aggregate calls the strategy's `remove`, otherwise
`set` is called with the aggregate; and a schema that is exactly one
conditional binding passes that binding's raw value directly instead of
string-aggregating it. -/
theorem syncValueSchemaValue_characterization (b : TB) (vs : List SchemaItem)
    (w : ObsWorld) :
    ((b.activateAttributeListener vs).source = b.bdef.observable
     ∧ (b.activateAttributeListener vs).eventName = changeEventKey b.bdef.attributeKey
     ∧ ∀ w2 : ObsWorld, (b.activateAttributeListener vs).recompute w2 = syncValueSchemaValue w2 vs)
    ∧ (∀ (i : Nat) (v : JsVal), vs[i]? = some (SchemaItem.lit v) →
         (getValueSchemaValue w vs)[i]? = some v)
    ∧ (∀ (i : Nat) (b2 : TB), vs[i]? = some (SchemaItem.bind b2) →
         (getValueSchemaValue w vs)[i]? = some (b2.getValue w))
    ∧ (isFalsy (schemaAggregate w vs) = true →
         syncValueSchemaValue w vs = UpdaterCall.remove)
    ∧ (isFalsy (schemaAggregate w vs) = false →
         syncValueSchemaValue w vs = UpdaterCall.set (schemaAggregate w vs))
    ∧ (∀ (d : BindingDef) (vit : Option JsVal),
         vs = [SchemaItem.bind (TB.ifB d vit)] →
         schemaAggregate w vs = (TB.ifB d vit).getValue w) := by
  refine ⟨⟨rfl, rfl, fun w2 => rfl⟩, ?_, ?_, ?_, ?_, ?_⟩
  · intro i v h
    simp [getValueSchemaValue, List.getElem?_map, h]
  · intro i b2 h
    simp [getValueSchemaValue, List.getElem?_map, h]
  · intro h
    simp [syncValueSchemaValue, h]
  · intro h
    simp [syncValueSchemaValue, h]
  · intro d vit h
    subst h
    simp [schemaAggregate]

/-- Witness for claim C5: the schema `[ 'x', bind.to( 'a' ) ]` with
`observable.a == 'yes'` synchronizes to `set 'x yes'`. -/
theorem syncValueSchemaValue_characterization_witness :
    syncValueSchemaValue worldTruthyA vsEx = UpdaterCall.set (JsVal.str "x yes") := by
  have h := (syncValueSchemaValue_characterization toBindingA vsEx worldTruthyA).2.2.2.2.1
    (by decide)
  have h2 : schemaAggregate worldTruthyA vsEx = JsVal.str "x yes" := by decide
  rw [h2] at h
  exact h

theorem filter_pipeline_bindings (vs : List SchemaItem) :
    ((vs.filter fun schemaItem => !(isFalsyItem schemaItem)).filter
        SchemaItem.hasObservable).filterMap SchemaItem.asBinding
      = vs.filterMap SchemaItem.asBinding := by
  induction vs with
  | nil => rfl
  | cons c rest ih =>
    cases c with
    | lit v =>
      have h1 : isFalsyItem (SchemaItem.lit v) = isFalsy v := rfl
      have h2 : SchemaItem.hasObservable (SchemaItem.lit v) = false := rfl
      have h3 : SchemaItem.asBinding (SchemaItem.lit v) = none := rfl
      by_cases hv : isFalsy v = true
      · simp only [List.filter_cons, h1, h2, h3, hv, Bool.not_true, if_neg,
          Bool.false_eq_true, not_false_eq_true, List.filterMap_cons]
        exact ih
      · have hv2 : isFalsy v = false := by simpa using hv
        simp only [List.filter_cons, h1, h2, h3, hv2, Bool.not_false, if_pos,
          Bool.false_eq_true, not_false_eq_true, if_neg, List.filterMap_cons]
        exact ih
    | bind b =>
      have h1 : isFalsyItem (SchemaItem.bind b) = false := rfl
      have h2 : SchemaItem.hasObservable (SchemaItem.bind b) = true := rfl
      have h3 : SchemaItem.asBinding (SchemaItem.bind b) = some b := rfl
      simp only [List.filter_cons, h1, h2, h3, Bool.not_false, if_pos,
        List.filterMap_cons]
      rw [ih]

/-- Claim C8 (confirmed): activating a value schema creates one
attribute-change subscription per binding instance in the schema — the
falsiness filter looks at the schema entry itself (a binding object is never
falsy), so a binding is subscribed regardless of its current value — while
literal entries never create subscriptions yet always take part in the value
computation (`getValueSchemaValue` maps the schema entry-wise, keeping every
literal at its position). -/
theorem bindToObservable_subscriptions (vs : List SchemaItem) (w : ObsWorld) :
    activatedListeners vs
      = (vs.filterMap SchemaItem.asBinding).map (fun b => b.activateAttributeListener vs)
    ∧ (getValueSchemaValue w vs).length = vs.length
    ∧ (∀ (i : Nat) (v : JsVal), vs[i]? = some (SchemaItem.lit v) →
         (getValueSchemaValue w vs)[i]? = some v) := by
  refine ⟨?_, ?_, ?_⟩
  · unfold activatedListeners
    rw [filter_pipeline_bindings vs]
  · simp [getValueSchemaValue]
  · intro i v h
    simp [getValueSchemaValue, List.getElem?_map, h]

/-- Witness for claim C8: in the schema `[ '', bind.to( 'a' ) ]` — whose
binding currently evaluates to the falsy `''` — the binding is still
subscribed (and the falsy literal is not). -/
theorem bindToObservable_subscriptions_witness :
    activatedListeners vsFalsy = [toBindingA.activateAttributeListener vsFalsy] := by
  have h := (bindToObservable_subscriptions vsFalsy worldFalsyA).1
  simpa [vsFalsy, List.filterMap_cons, SchemaItem.asBinding] using h

/-- Claim C9 (confirmed): a DOM event listener activated with a (non-empty)
selector triggers exactly when the native event's target matches the
selector; without a selector it always triggers; and on a qualifying event a
configured callback function is invoked with the native event, otherwise the
named event is fired on the observable carrying the native event.  The
subscription itself is registered on the given element under the given DOM
event name, with the handler closed over the selector. -/
theorem domEventListener_selector_filtering (obs : Nat) (enf : EvtNameOrFn)
    (domEvt : DomEvent) :
    (∀ s : String, s ≠ "" →
       ((handleDomEvent obs enf (some s) domEvt).isSome = true
          ↔ domEvt.targetMatches s = true))
    ∧ (handleDomEvent obs enf none domEvt).isSome = true
    ∧ (∀ domSelector : Option String,
        (!(selectorTruthy domSelector)
           || domEvt.targetMatches (domSelector.getD "")) = true →
        handleDomEvent obs enf domSelector domEvt =
          (match enf with
           | .fn f => some (DomEventAction.callFn f domEvt.payload)
           | .name n => some (DomEventAction.fireEvent obs n domEvt.payload)))
    ∧ (∀ (d : BindingDef) (enf2 : EvtNameOrFn) (el : Nat) (evtName : String)
         (sel : Option String) (e2 : DomEvent),
        ((TB.toB d enf2).activateDomEventListener el evtName sel).element = el
        ∧ ((TB.toB d enf2).activateDomEventListener el evtName sel).eventName = evtName
        ∧ ((TB.toB d enf2).activateDomEventListener el evtName sel).handler e2
            = handleDomEvent d.observable enf2 sel e2) := by
  refine ⟨?_, ?_, ?_, ?_⟩
  · intro s hs
    have hsel : selectorTruthy (some s) = true := by simp [selectorTruthy, hs]
    cases hm : domEvt.targetMatches s <;> cases enf <;>
      simp [handleDomEvent, hsel, hm]
  · cases enf <;> simp [handleDomEvent, selectorTruthy]
  · intro domSelector hsel
    cases enf <;> simp [handleDomEvent, hsel]
  · intro d enf2 el evtName sel e2
    exact ⟨rfl, rfl, rfl⟩

/-- Witness for claim C9: a `click@.item`-style listener bound to fire
`'clicked'` on observable `1`, receiving an event whose target matches
`.item`, fires the named event with the native event as payload. -/
theorem domEventListener_selector_filtering_witness :
    handleDomEvent 1 (EvtNameOrFn.name "clicked") (some ".item") evtEx
      = some (DomEventAction.fireEvent 1 "clicked" 9) := by
  have h := (domEventListener_selector_filtering 1 (EvtNameOrFn.name "clicked") evtEx).2.2.1
    (some ".item") (by decide)
  simpa [evtEx] using h

/-- Claim C3 counterexample: the empty definition `{}` normalizes to a
fragment with a present, empty children collection; its child count (0)
differs from `t0`'s (1), yet `extend` succeeds without any error — the
source only performs the count check when the fragment declares a non-zero
number of children (`def.children && def.children.length`). -/
theorem extend_zero_children_fragment_accepted :
    frag0 = normalizeDef emptyObjDef
    ∧ (Tmpl.children frag0).map List.length = some 0
    ∧ (Tmpl.children t0).map List.length = some 1
    ∧ t0 = Tmpl.ofDef pDef
    ∧ extendTemplate t0 frag0 = Except.ok t0 := by
  refine ⟨?_, by simp [frag0, Tmpl.children], by simp [t0, Tmpl.children], ?_, ?_⟩
  · simp [frag0, normalizeDef, emptyObjDef, rawTextTruthy]
  · simp [t0, Tmpl.ofDef, normalizeDef, pDef, rawTextTruthy, normalizeChildList, tchild0]
  · simp [extendTemplate, t0, frag0]

/-- Claim C3 (amended, proved): `extend` fails with `ChildCountMismatch`
whenever the normalized fragment declares at least one child and that count
differs from the target template's child count (a fragment with children has
no `text`, so no earlier step can fail first); a fragment declaring zero
children is accepted regardless of the target's child count. -/
theorem extend_children_count_mismatch (t d : Tmpl) (l m : List TmplChild)
    (h1 : d.children = some l) (h2 : l ≠ [])
    (h3 : d.text = none)
    (h4 : t.children = some m) (h5 : m.length ≠ l.length) :
    extendTemplate t d = Except.error CKError.childCountMismatch := by
  cases t with
  | mk tg tns tx a e ch =>
    cases d with
    | mk dtg dtns dtx da de dch =>
      simp only [Tmpl.children] at h1 h4
      simp only [Tmpl.text] at h3
      subst h1
      subst h4
      subst h3
      cases l with
      | nil => exact absurd rfl h2
      | cons dc dcs =>
        have h6 : (m.length != (dc :: dcs).length) = true := by
          simpa [bne_iff_ne] using h5
        rw [extendTemplate.eq_def]
        simp [h6]
        intro hcon
        exact absurd hcon (by simpa using h5)

/-- Witness for the amended claim C3: extending `t0` (one child) with a
fragment declaring two children fails with `ChildCountMismatch`. -/
theorem extend_children_count_mismatch_witness :
    extendTemplate t0 frag2 = Except.error CKError.childCountMismatch := by
  exact extend_children_count_mismatch t0 frag2
    [TmplChild.sub frag0, TmplChild.sub frag0] [TmplChild.sub tchild0]
    (by simp [frag2, Tmpl.children]) (by simp)
    (by simp [frag2, Tmpl.text])
    (by simp [t0, Tmpl.children]) (by simp)

theorem assocLookup_nil {α : Type} (k : String) :
    assocLookup ([] : List (String × α)) k = none := rfl

theorem assocLookup_cons {α : Type} (p : String × α) (l : List (String × α)) (k : String) :
    assocLookup (p :: l) k = if p.1 = k then some p.2 else assocLookup l k := rfl

theorem assocLookup_append {α : Type} (l1 l2 : List (String × α)) (k : String) :
    assocLookup (l1 ++ l2) k =
      match assocLookup l1 k with
      | some x => some x
      | none => assocLookup l2 k := by
  induction l1 with
  | nil => simp [assocLookup]
  | cons p rest ih =>
    by_cases h : p.1 = k <;> simp [assocLookup_cons, h, ih]

theorem assocLookup_eq_none_of_not_mem {α : Type} (l : List (String × α)) (k : String)
    (h : k ∉ l.map Prod.fst) : assocLookup l k = none := by
  induction l with
  | nil => rfl
  | cons p rest ih =>
    simp only [List.map_cons, List.mem_cons, not_or] at h
    have hp : p.1 ≠ k := fun he => h.1 he.symm
    simp [assocLookup_cons, hp, ih h.2]

theorem assocLookup_mapUpdate {α : Type} (l : List (String × List α)) (k0 : String)
    (vs : List α) (k : String) :
    assocLookup (l.map fun p => if p.1 = k0 then (p.1, p.2 ++ vs) else p) k
      = if k0 = k then (assocLookup l k).map (fun x => x ++ vs)
        else assocLookup l k := by
  induction l with
  | nil => by_cases h : k0 = k <;> simp [assocLookup, h]
  | cons p rest ih =>
    by_cases hp : p.1 = k0
    · by_cases hk : k0 = k
      · subst hp
        subst hk
        simp [List.map_cons, assocLookup_cons, ih]
      · have hpk : p.1 ≠ k := by rw [hp]; exact hk
        simp [List.map_cons, assocLookup_cons, hp, hpk, ih, hk]
    · by_cases hpk : p.1 = k
      · have hk : k0 ≠ k := by
          intro he
          exact hp (by rw [hpk, he])
        have hk2 : ¬(k = k0) := fun he => hk he.symm
        simp [List.map_cons, assocLookup_cons, hp, hpk, hk, hk2]
      · simp [List.map_cons, assocLookup_cons, hp, hpk, ih]

theorem eova_lookup {α : Type} (ext : List (String × List α)) :
    ∀ obj : List (String × List α), (ext.map Prod.fst).Nodup → ∀ k : String,
      assocLookup (extendObjectValueArray obj ext) k
        = mergeValueArrays (assocLookup obj k) (assocLookup ext k) := by
  induction ext with
  | nil =>
    intro obj hn k
    have h0 : extendObjectValueArray obj ([] : List (String × List α)) = obj := rfl
    rw [h0, assocLookup_nil]
    cases assocLookup obj k <;> simp [mergeValueArrays]
  | cons kv rest ih =>
    intro obj hn k
    simp only [List.map_cons, List.nodup_cons] at hn
    obtain ⟨hmem, hrest⟩ := hn
    have hstep : extendObjectValueArray obj (kv :: rest)
        = extendObjectValueArray
            (if (assocLookup obj kv.1).isSome then
               obj.map fun p => if p.1 = kv.1 then (p.1, p.2 ++ kv.2) else p
             else obj ++ [kv]) rest := by
      simp [extendObjectValueArray, List.foldl_cons]
    rw [hstep, ih _ hrest k]
    by_cases hf : (assocLookup obj kv.1).isSome = true
    · rw [if_pos hf, assocLookup_mapUpdate]
      rcases Option.isSome_iff_exists.mp hf with ⟨x, hx⟩
      by_cases hk : kv.1 = k
      · subst hk
        have hrnone : assocLookup rest kv.1 = none :=
          assocLookup_eq_none_of_not_mem rest kv.1 hmem
        simp [assocLookup_cons, hx, hrnone, mergeValueArrays]
      · simp [assocLookup_cons, hk]
    · have hf2 : assocLookup obj kv.1 = none := by
        cases hv : assocLookup obj kv.1 with
        | none => rfl
        | some x => rw [hv] at hf; simp at hf
      rw [if_neg (by simp [hf2]), assocLookup_append]
      by_cases hk : kv.1 = k
      · subst hk
        have hrnone : assocLookup rest kv.1 = none :=
          assocLookup_eq_none_of_not_mem rest kv.1 hmem
        simp [assocLookup_cons, hf2, hrnone, mergeValueArrays]
      · simp [assocLookup_cons, hk]
        cases hl : assocLookup obj k <;> simp [mergeValueArrays, assocLookup_nil]

/-- Claim C7 (confirmed): when the normalized fragment's declared child count
matches the target's (and the pairwise child extensions succeed), `extend`
succeeds and merges in place: attribute arrays and event-listener arrays are
concatenated key-by-key with new keys added verbatim (key-wise lookup of the
result is the concatenation of the two lookups), text arrays are appended,
and the children collection becomes the pairwise recursive extension (for a
fragment declaring zero children the target's children are untouched). -/
theorem extendTemplate_keywise_merge (t d : Tmpl) (tcs dcs cs : List TmplChild)
    (h1 : t.children = some tcs) (h2 : d.children = some dcs)
    (hlen : tcs.length = dcs.length)
    (htext : d.text = none ∨ t.text.isSome = true)
    (hrec : extendChildList tcs dcs = Except.ok cs)
    (hna : ((d.attributes.getD []).map Prod.fst).Nodup)
    (hne : ((d.eventListeners.getD []).map Prod.fst).Nodup) :
    ∃ t2 : Tmpl, extendTemplate t d = Except.ok t2
      ∧ t2.tag = t.tag ∧ t2.ns = t.ns
      ∧ (∀ k : String, assocLookup (t2.attributes.getD []) k
            = mergeValueArrays (assocLookup (t.attributes.getD []) k)
                (assocLookup (d.attributes.getD []) k))
      ∧ (∀ k : String, assocLookup (t2.eventListeners.getD []) k
            = mergeValueArrays (assocLookup (t.eventListeners.getD []) k)
                (assocLookup (d.eventListeners.getD []) k))
      ∧ t2.text = (match d.text with
                   | none => t.text
                   | some ts => some ((t.text.getD []) ++ ts))
      ∧ t2.children = (if dcs.isEmpty then t.children else some cs) := by
  cases t with
  | mk tg tns tx a e ch =>
    cases d with
    | mk dtg dtns dtx da de dch =>
      simp only [Tmpl.children] at h1 h2
      subst h1
      subst h2
      simp only [Tmpl.attributes, Tmpl.eventListeners, Tmpl.text] at hna hne htext ⊢
      have hA : ∀ k : String,
          assocLookup ((match da with
            | none => a
            | some ea => some (extendObjectValueArray (a.getD []) ea)).getD []) k
          = mergeValueArrays (assocLookup (a.getD []) k) (assocLookup (da.getD []) k) := by
        intro k
        cases da with
        | none =>
          cases h : assocLookup (a.getD []) k <;>
            simp [mergeValueArrays, assocLookup_nil, h]
        | some ea =>
          simpa using eova_lookup ea (a.getD []) (by simpa using hna) k
      have hE : ∀ k : String,
          assocLookup ((match de with
            | none => e
            | some ee => some (extendObjectValueArray (e.getD []) ee)).getD []) k
          = mergeValueArrays (assocLookup (e.getD []) k) (assocLookup (de.getD []) k) := by
        intro k
        cases de with
        | none =>
          cases h : assocLookup (e.getD []) k <;>
            simp [mergeValueArrays, assocLookup_nil, h]
        | some ee =>
          simpa using eova_lookup ee (e.getD []) (by simpa using hne) k
      cases dtx with
      | none =>
        cases dcs with
        | nil =>
          refine ⟨Tmpl.mk tg tns tx
              (match da with
               | none => a
               | some ea => some (extendObjectValueArray (a.getD []) ea))
              (match de with
               | none => e
               | some ee => some (extendObjectValueArray (e.getD []) ee))
              (some tcs), ?_, rfl, rfl, ?_, ?_, ?_, ?_⟩
          · rw [extendTemplate.eq_def]
          · simpa [Tmpl.attributes] using hA
          · simpa [Tmpl.eventListeners] using hE
          · simp [Tmpl.text]
          · simp [Tmpl.children]
        | cons dc dcs2 =>
          have hbne : (tcs.length != (dc :: dcs2).length) = false := by
            simp [bne, hlen]
          refine ⟨Tmpl.mk tg tns tx
              (match da with
               | none => a
               | some ea => some (extendObjectValueArray (a.getD []) ea))
              (match de with
               | none => e
               | some ee => some (extendObjectValueArray (e.getD []) ee))
              (some cs), ?_, rfl, rfl, ?_, ?_, ?_, ?_⟩
          · rw [extendTemplate.eq_def]
            simp only [hbne, Bool.false_eq_true, if_neg, not_false_eq_true, hrec,
              exceptBindOk]
          · simpa [Tmpl.attributes] using hA
          · simpa [Tmpl.eventListeners] using hE
          · simp [Tmpl.text]
          · simp [Tmpl.children]
      | some ts =>
        rcases htext with h | h
        · exact absurd h (by simp)
        · obtain ⟨old, hold⟩ := Option.isSome_iff_exists.mp h
          subst hold
          cases dcs with
          | nil =>
            refine ⟨Tmpl.mk tg tns (some (old ++ ts))
                (match da with
                 | none => a
                 | some ea => some (extendObjectValueArray (a.getD []) ea))
                (match de with
                 | none => e
                 | some ee => some (extendObjectValueArray (e.getD []) ee))
                (some tcs), ?_, rfl, rfl, ?_, ?_, ?_, ?_⟩
            · rw [extendTemplate.eq_def]
            · simpa [Tmpl.attributes] using hA
            · simpa [Tmpl.eventListeners] using hE
            · simp [Tmpl.text]
            · simp [Tmpl.children]
          | cons dc dcs2 =>
            have hbne : (tcs.length != (dc :: dcs2).length) = false := by
              simp [bne, hlen]
            refine ⟨Tmpl.mk tg tns (some (old ++ ts))
                (match da with
                 | none => a
                 | some ea => some (extendObjectValueArray (a.getD []) ea))
                (match de with
                 | none => e
                 | some ee => some (extendObjectValueArray (e.getD []) ee))
                (some cs), ?_, rfl, rfl, ?_, ?_, ?_, ?_⟩
            · rw [extendTemplate.eq_def]
              simp only [hbne, Bool.false_eq_true, if_neg, not_false_eq_true, hrec,
                exceptBindOk]
            · simpa [Tmpl.attributes] using hA
            · simpa [Tmpl.eventListeners] using hE
            · simp [Tmpl.text]
            · simp [Tmpl.children]

/-- Witness for claim C7: extending `t0` (one child, no attributes) with
`fragM` (one child, a `class` attribute) succeeds and merges key-wise. -/
theorem extendTemplate_keywise_merge_witness :
    ∃ t2 : Tmpl, extendTemplate t0 fragM = Except.ok t2
      ∧ t2.tag = t0.tag ∧ t2.ns = t0.ns
      ∧ (∀ k : String, assocLookup (t2.attributes.getD []) k
            = mergeValueArrays (assocLookup (t0.attributes.getD []) k)
                (assocLookup (fragM.attributes.getD []) k))
      ∧ (∀ k : String, assocLookup (t2.eventListeners.getD []) k
            = mergeValueArrays (assocLookup (t0.eventListeners.getD []) k)
                (assocLookup (fragM.eventListeners.getD []) k))
      ∧ t2.text = (match fragM.text with
                   | none => t0.text
                   | some ts => some ((t0.text.getD []) ++ ts))
      ∧ t2.children = (if [TmplChild.sub frag0].isEmpty then t0.children
                       else some [TmplChild.sub tchild0]) := by
  exact extendTemplate_keywise_merge t0 fragM
    [TmplChild.sub tchild0] [TmplChild.sub frag0] [TmplChild.sub tchild0]
    (by simp [t0, Tmpl.children]) (by simp [fragM, Tmpl.children]) (by simp)
    (Or.inl (by simp [fragM, Tmpl.text]))
    (by simp [extendChildList, extendChild, extendTemplate, tchild0, frag0, exceptBindOk])
    (by simp [fragM, Tmpl.attributes])
    (by simp [fragM, Tmpl.eventListeners])

theorem sizeOf_sub_lt_of_mem (cs : List TmplChild) (s : Tmpl)
    (h : TmplChild.sub s ∈ cs) : sizeOf s < sizeOf cs := by
  have h1 := List.sizeOf_lt_of_mem h
  have h2 : sizeOf (TmplChild.sub s) = 1 + sizeOf s := by simp
  omega

theorem sizeOf_children_lt (tg tns : Option String) (tx : Option (List SchemaItem))
    (a : Option (List (String × List AttrPart)))
    (e : Option (List (String × List TB))) (cs : List TmplChild) :
    sizeOf cs < sizeOf (Tmpl.mk tg tns tx a e (some cs)) := by
  simp
  omega

theorem renderChildList_ok (w : ObsWorld) (cs : List TmplChild)
    (IH : ∀ s, TmplChild.sub s ∈ cs → treeValid s = true →
        ∀ (ap : Option DomNode) (fr : Bool), ∃ nd, renderNode w s ap fr = Except.ok nd)
    (hv : childListValid cs = true) :
    ∃ nds, renderChildList w cs = Except.ok nds := by
  induction cs with
  | nil => exact ⟨[], rfl⟩
  | cons c rest ih =>
    cases c with
    | view el =>
      have hrest : childListValid rest = true := by simpa [childListValid] using hv
      obtain ⟨nds, hnds⟩ := ih (fun s hs hv2 ap fr => IH s (by simp [hs]) hv2 ap fr) hrest
      exact ⟨el :: nds, by simp [renderChildList, hnds, exceptBindOk]⟩
    | viewCollection els =>
      have hrest : childListValid rest = true := by simpa [childListValid] using hv
      obtain ⟨nds, hnds⟩ := ih (fun s hs hv2 ap fr => IH s (by simp [hs]) hv2 ap fr) hrest
      exact ⟨els ++ nds, by simp [renderChildList, hnds, exceptBindOk]⟩
    | sub s =>
      have hs : treeValid s = true ∧ childListValid rest = true := by
        simpa [childListValid, Bool.and_eq_true] using hv
      obtain ⟨nd, hnd⟩ := IH s (by simp) hs.1 none true
      obtain ⟨nds, hnds⟩ := ih (fun s2 hs2 hv2 ap fr => IH s2 (by simp [hs2]) hv2 ap fr) hs.2
      exact ⟨nd :: nds, by simp [renderChildList, hnd, hnds, exceptBindOk]⟩

theorem applyChildList_ok (w : ObsWorld) (cs : List TmplChild)
    (IH : ∀ s, TmplChild.sub s ∈ cs → treeValid s = true →
        ∀ (ap : Option DomNode) (fr : Bool), ∃ nd, renderNode w s ap fr = Except.ok nd)
    (hv : childListValid cs = true) :
    ∀ (existing : List DomNode) (i : Nat),
      ∃ nds, applyChildList w cs existing i = Except.ok nds := by
  induction cs with
  | nil => intro existing i; exact ⟨existing, rfl⟩
  | cons c rest ih =>
    intro existing i
    cases c with
    | view el =>
      have hrest : childListValid rest = true := by simpa [childListValid] using hv
      obtain ⟨nds, hnds⟩ :=
        ih (fun s hs hv2 ap fr => IH s (by simp [hs]) hv2 ap fr) hrest existing i
      exact ⟨nds, by simp [applyChildList, hnds]⟩
    | viewCollection els =>
      have hrest : childListValid rest = true := by simpa [childListValid] using hv
      obtain ⟨nds, hnds⟩ :=
        ih (fun s hs hv2 ap fr => IH s (by simp [hs]) hv2 ap fr) hrest existing i
      exact ⟨nds, by simp [applyChildList, hnds]⟩
    | sub s =>
      have hs : treeValid s = true ∧ childListValid rest = true := by
        simpa [childListValid, Bool.and_eq_true] using hv
      have ihrest := ih (fun s2 hs2 hv2 ap fr => IH s2 (by simp [hs2]) hv2 ap fr) hs.2
      cases hx : existing[i]? with
      | some node =>
        obtain ⟨nd2, hnd2⟩ := IH s (by simp) hs.1 (some node) false
        obtain ⟨nds, hnds⟩ := ihrest (existing.set i nd2) (i + 1)
        exact ⟨nds, by simp [applyChildList, hx, hnd2, hnds, exceptBindOk]⟩
      | none =>
        obtain ⟨nd2, hnd2⟩ := IH s (by simp) hs.1 none false
        obtain ⟨nds, hnds⟩ := ihrest existing (i + 1)
        exact ⟨nds, by simp [applyChildList, hx, hnd2, hnds, exceptBindOk]⟩

theorem renderChildList_err (w : ObsWorld) (cs : List TmplChild)
    (IHok : ∀ s, TmplChild.sub s ∈ cs → treeValid s = true →
        ∀ (ap : Option DomNode) (fr : Bool), ∃ nd, renderNode w s ap fr = Except.ok nd)
    (IHerr : ∀ s, TmplChild.sub s ∈ cs → wfTmpl s = true → treeValid s = false →
        ∀ fr : Bool, renderNode w s none fr = Except.error CKError.invalidDefinition)
    (hwf : wfChildList cs = true) (hv : childListValid cs = false) :
    renderChildList w cs = Except.error CKError.invalidDefinition := by
  induction cs with
  | nil => simp [childListValid] at hv
  | cons c rest ih =>
    cases c with
    | view el =>
      have hwrest : wfChildList rest = true := by simpa [wfChildList] using hwf
      have hrest : childListValid rest = false := by simpa [childListValid] using hv
      have hrec := ih (fun s hs hv2 ap fr => IHok s (by simp [hs]) hv2 ap fr)
        (fun s hs hw2 hv2 fr => IHerr s (by simp [hs]) hw2 hv2 fr) hwrest hrest
      simp [renderChildList, hrec, exceptBindError]
    | viewCollection els =>
      have hwrest : wfChildList rest = true := by simpa [wfChildList] using hwf
      have hrest : childListValid rest = false := by simpa [childListValid] using hv
      have hrec := ih (fun s hs hv2 ap fr => IHok s (by simp [hs]) hv2 ap fr)
        (fun s hs hw2 hv2 fr => IHerr s (by simp [hs]) hw2 hv2 fr) hwrest hrest
      simp [renderChildList, hrec, exceptBindError]
    | sub s =>
      have hwp : wfTmpl s = true ∧ wfChildList rest = true := by
        simpa [wfChildList, Bool.and_eq_true] using hwf
      cases htv : treeValid s with
      | false =>
        have herr := IHerr s (by simp) hwp.1 htv true
        simp [renderChildList, herr, exceptBindError]
      | true =>
        have hrest : childListValid rest = false := by
          simpa [childListValid, htv] using hv
        obtain ⟨nd, hnd⟩ := IHok s (by simp) htv none true
        have hrec := ih (fun s2 hs2 hv2 ap fr => IHok s2 (by simp [hs2]) hv2 ap fr)
          (fun s2 hs2 hw2 hv2 fr => IHerr s2 (by simp [hs2]) hw2 hv2 fr) hwp.2 hrest
        simp [renderChildList, hnd, hrec, exceptBindOk, exceptBindError]

theorem hasTag_mk (tg tns : Option String) (tx : Option (List SchemaItem))
    (a : Option (List (String × List AttrPart)))
    (e : Option (List (String × List TB))) (ch : Option (List TmplChild)) :
    hasTag (Tmpl.mk tg tns tx a e ch) = tagTruthy tg := by
  cases tg <;> rfl

theorem hasText_mk (tg tns : Option String) (tx : Option (List SchemaItem))
    (a : Option (List (String × List AttrPart)))
    (e : Option (List (String × List TB))) (ch : Option (List TmplChild)) :
    hasText (Tmpl.mk tg tns tx a e ch) = tx.isSome := rfl

theorem renderNode_ok_aux : ∀ (n : Nat) (t : Tmpl), sizeOf t < n → treeValid t = true →
    ∀ (w : ObsWorld) (ap : Option DomNode) (fr : Bool),
      ∃ nd, renderNode w t ap fr = Except.ok nd := by
  intro n
  induction n with
  | zero => intro t h; omega
  | succ n ihn =>
    intro t hsz hv w ap fr
    cases t with
    | mk tg tns tx a e chOpt =>
      cases tx with
      | some items =>
        have htg : tagTruthy tg = false := by
          simpa [treeValid] using hv
        cases ap with
        | none =>
          refine ⟨renderTextNode w items (DomNode.textNode ""), ?_⟩
          simp [renderNode, hasTag_mk, hasText_mk, htg]
        | some nd0 =>
          refine ⟨renderTextNode w items nd0, ?_⟩
          simp [renderNode, hasTag_mk, hasText_mk, htg]
      | none =>
        cases chOpt with
        | none => simp [treeValid] at hv
        | some cs =>
          have hmain : tagTruthy tg = true ∧ childListValid cs = true := by
            simpa [treeValid] using hv
          have hszcs : sizeOf cs < n := by
            have := sizeOf_children_lt tg tns none a e cs
            omega
          have IH : ∀ s, TmplChild.sub s ∈ cs → treeValid s = true →
              ∀ (ap2 : Option DomNode) (fr2 : Bool),
                ∃ nd, renderNode w s ap2 fr2 = Except.ok nd := by
            intro s hs hv2 ap2 fr2
            have hlt := sizeOf_sub_lt_of_mem cs s hs
            exact ihn s (by omega) hv2 w ap2 fr2
          cases ap with
          | some nd0 =>
            obtain ⟨nds, hnds⟩ := applyChildList_ok w cs IH hmain.2
              (domChildren (renderAttributes w (a.getD []) nd0)) 0
            refine ⟨setChildren (renderAttributes w (a.getD []) nd0) nds, ?_⟩
            simp [renderNode, hasTag_mk, hasText_mk, hmain.1, hnds, exceptBindOk]
          | none =>
            obtain ⟨nds, hnds⟩ := renderChildList_ok w cs IH hmain.2
            refine ⟨appendChildren
              (renderAttributes w (a.getD [])
                (DomNode.element (nsOrDefault tns) (tg.getD "") [] [] [])) nds, ?_⟩
            simp [renderNode, hasTag_mk, hasText_mk, hmain.1, hnds, exceptBindOk]

theorem renderNode_err_aux : ∀ (n : Nat) (t : Tmpl), sizeOf t < n → wfTmpl t = true →
    treeValid t = false → ∀ (w : ObsWorld) (fr : Bool),
      renderNode w t none fr = Except.error CKError.invalidDefinition := by
  intro n
  induction n with
  | zero => intro t h; omega
  | succ n ihn =>
    intro t hsz hwf hv w fr
    cases t with
    | mk tg tns tx a e chOpt =>
      by_cases hx : (tagTruthy tg != tx.isSome) = true
      · cases tx with
        | some items =>
          have htg : tagTruthy tg = false := by simpa using hx
          simp [treeValid, htg] at hv
        | none =>
          have htg : tagTruthy tg = true := by simpa using hx
          cases chOpt with
          | none => simp [wfTmpl] at hwf
          | some cs =>
            have hwcl : wfChildList cs = true := by simpa [wfTmpl] using hwf
            have hcl : childListValid cs = false := by
              simpa [treeValid, htg] using hv
            have hszcs : sizeOf cs < n := by
              have := sizeOf_children_lt tg tns none a e cs
              omega
            have IHok : ∀ s, TmplChild.sub s ∈ cs → treeValid s = true →
                ∀ (ap2 : Option DomNode) (fr2 : Bool),
                  ∃ nd, renderNode w s ap2 fr2 = Except.ok nd := by
              intro s hs hv2 ap2 fr2
              exact renderNode_ok_aux (sizeOf s + 1) s (by omega) hv2 w ap2 fr2
            have IHerr : ∀ s, TmplChild.sub s ∈ cs → wfTmpl s = true →
                treeValid s = false → ∀ fr2 : Bool,
                  renderNode w s none fr2 = Except.error CKError.invalidDefinition := by
              intro s hs hw2 hv2 fr2
              have hlt := sizeOf_sub_lt_of_mem cs s hs
              exact ihn s (by omega) hw2 hv2 w fr2
            have herr := renderChildList_err w cs IHok IHerr hwcl hcl
            simp [renderNode, hasTag_mk, hasText_mk, htg, herr, exceptBindError]
      · have hx2 : tagTruthy tg = tx.isSome := by
          have h := hx
          simp only [bne_iff_ne, ne_eq, not_not] at h
          exact h
        cases tx with
        | some items =>
          have htg : tagTruthy tg = true := by rw [hx2]; rfl
          simp [renderNode, hasTag_mk, hasText_mk, htg]
        | none =>
          have htg : tagTruthy tg = false := by rw [hx2]; rfl
          cases chOpt <;> simp [renderNode, hasTag_mk, hasText_mk, htg]

theorem treeValid_mk (tg tns : Option String) (tx : Option (List SchemaItem))
    (a : Option (List (String × List AttrPart)))
    (e : Option (List (String × List TB))) (ch : Option (List TmplChild)) :
    treeValid (Tmpl.mk tg tns tx a e ch)
      = ((tagTruthy tg != tx.isSome) &&
         (match tx with
          | some _ => true
          | none =>
            match ch with
            | none => false
            | some cs => childListValid cs)) := by
  rw [treeValid.eq_def]

/-- Claim C1 (amended, proved): `render()` throws `InvalidDefinition` when
the template itself does not have exactly one of truthy `tag` / present
`text`; when it does, `render()` returns a node provided every recursively
rendered descendant template also has exactly one of `tag`/`text`, and with
an invalid descendant it throws `InvalidDefinition` raised while rendering
that descendant (so success is NOT guaranteed by the root check alone). -/
theorem render_validity (w : ObsWorld) (t : Tmpl) (hwf : wfTmpl t = true) :
    ((tagTruthy t.tag != t.text.isSome) = false →
        Tmpl.render w t = Except.error CKError.invalidDefinition ∧ treeValid t = false)
    ∧ (treeValid t = true → ∃ nd, Tmpl.render w t = Except.ok nd)
    ∧ (treeValid t = false → Tmpl.render w t = Except.error CKError.invalidDefinition) := by
  refine ⟨?_, ?_, ?_⟩
  · intro hx
    have htv : treeValid t = false := by
      cases t with
      | mk tg tns tx a e ch =>
        simp only [Tmpl.tag, Tmpl.text] at hx
        rw [treeValid_mk, hx, Bool.false_and]
    exact ⟨renderNode_err_aux (sizeOf t + 1) t (by omega) hwf htv w true, htv⟩
  · intro hv
    exact renderNode_ok_aux (sizeOf t + 1) t (by omega) hv w none true
  · intro hv
    exact renderNode_err_aux (sizeOf t + 1) t (by omega) hwf hv w true

/-- Witness for the amended claim C1: the valid childless `{ tag: 'p' }`
template renders to a node. -/
theorem render_validity_witness :
    ∃ nd, Tmpl.render [] tValidP = Except.ok nd :=
  (render_validity [] tValidP (by simp [tValidP, wfTmpl, wfChildList])).2.1
    (by simp [tValidP, treeValid, childListValid, tagTruthy])

/-- Claim C1 counterexample: `{ tag: 'div', children: [ { tag: 'span',
text: 'x' } ] }` normalizes to a root with exactly one of tag/text set
(truthy tag, no text), yet `render()` throws `InvalidDefinition` — the
invalid child is reached by the recursive rendering. -/
theorem render_valid_root_invalid_child_throws :
    hasTag rootDiv = true
    ∧ hasText rootDiv = false
    ∧ rootDiv = Tmpl.ofDef divBadChildDef
    ∧ Tmpl.render [] rootDiv = Except.error CKError.invalidDefinition := by
  refine ⟨by decide, by decide, ?_, ?_⟩
  · simp [rootDiv, Tmpl.ofDef, normalizeDef, divBadChildDef, spanTextDef,
      normalizeChildList, rawTextTruthy, normalizeText, childBoth, jsTruthy]
  · simp [Tmpl.render, rootDiv, childBoth, renderNode, renderChildList, hasTag,
      hasText, Tmpl.tag, Tmpl.text, renderAttributes, exceptBindError, exceptBindOk]

/-- Claim C2 (amended, proved): `apply` with no node throws `MissingTarget`;
`apply(node)` on a template with both truthy `tag` and present `text` throws
`InvalidDefinition`; and a template with neither `tag` nor `text` is accepted
by `apply(node)` provided every recursively applied child template passes
its own check (an invalid descendant makes `apply` throw, see the
counterexample). -/
theorem apply_validity (w : ObsWorld) (t : Tmpl) (nd : DomNode) :
    Tmpl.applyTo w t none = Except.error CKError.missingTarget
    ∧ (hasTag t = true → hasText t = true →
        Tmpl.applyTo w t (some nd) = Except.error CKError.invalidDefinition)
    ∧ (wfTmpl t = true → hasTag t = false → hasText t = false →
        childListValid ((Tmpl.children t).getD []) = true →
        ∃ nd2, Tmpl.applyTo w t (some nd) = Except.ok nd2) := by
  refine ⟨rfl, ?_, ?_⟩
  · intro h1 h2
    cases t with
    | mk tg tns tx a e ch =>
      simp only [hasTag_mk] at h1
      simp only [hasText_mk] at h2
      cases tx with
      | none => simp at h2
      | some items =>
        simp [Tmpl.applyTo, renderNode, hasTag_mk, hasText_mk, h1, h2]
  · intro hwf h1 h2 hcl
    cases t with
    | mk tg tns tx a e ch =>
      simp only [hasTag_mk] at h1
      simp only [hasText_mk] at h2
      cases tx with
      | some items => simp at h2
      | none =>
        cases ch with
        | none => simp [wfTmpl] at hwf
        | some cs =>
          simp only [Tmpl.children, Option.getD_some] at hcl
          have IH : ∀ s, TmplChild.sub s ∈ cs → treeValid s = true →
              ∀ (ap2 : Option DomNode) (fr2 : Bool),
                ∃ nd2, renderNode w s ap2 fr2 = Except.ok nd2 := by
            intro s hs hv2 ap2 fr2
            exact renderNode_ok_aux (sizeOf s + 1) s (by omega) hv2 w ap2 fr2
          obtain ⟨nds, hnds⟩ := applyChildList_ok w cs IH hcl
            (domChildren (renderAttributes w (a.getD []) nd)) 0
          refine ⟨setChildren (renderAttributes w (a.getD []) nd) nds, ?_⟩
          simp [Tmpl.applyTo, renderNode, hasTag_mk, hasText_mk, h1, hnds, exceptBindOk]

/-- Witness for the amended claim C2: `apply` with no node throws
`MissingTarget`, while the `{}` template (neither tag nor text, no children)
is accepted on an existing element. -/
theorem apply_validity_witness :
    Tmpl.applyTo [] frag0 none = Except.error CKError.missingTarget
    ∧ ∃ nd2, Tmpl.applyTo [] frag0 (some applyTarget) = Except.ok nd2 := by
  have h := apply_validity [] frag0 applyTarget
  exact ⟨h.1, h.2.2 (by simp [frag0, wfTmpl, wfChildList]) (by decide) (by decide)
    (by simp [frag0, Tmpl.children, childListValid])⟩

/-- Claim C2 counterexample: `{ children: [ { tag: 'span', text: 'x' } ] }`
normalizes to a template with neither `tag` nor `text` at the root, yet
`apply` on an existing `<div><span></span></div>` is NOT accepted — it
throws `InvalidDefinition` while applying the invalid child. -/
theorem apply_neither_rejected_with_invalid_child :
    hasTag rootNeither = false
    ∧ hasText rootNeither = false
    ∧ rootNeither = Tmpl.ofDef neitherBadChildDef
    ∧ Tmpl.applyTo [] rootNeither (some applyTarget)
        = Except.error CKError.invalidDefinition := by
  refine ⟨by decide, by decide, ?_, ?_⟩
  · simp [rootNeither, Tmpl.ofDef, normalizeDef, neitherBadChildDef, spanTextDef,
      normalizeChildList, rawTextTruthy, normalizeText, childBoth, jsTruthy]
  · simp [Tmpl.applyTo, rootNeither, childBoth, applyTarget, renderNode,
      applyChildList, hasTag, hasText, Tmpl.tag, Tmpl.text, renderAttributes,
      domChildren, exceptBindError, exceptBindOk]
